import Mathlib

/-!
Verification of the `ruesier/iterator` Go package against its specification.

The Go code is shallowly embedded: each method that reads and mutates a
struct is translated into a Lean function from an explicit state (and, for
methods whose behaviour depends on a channel/select outcome, an extra event
parameter describing which select branch fired — the environment's choice).
The concurrent worker pool (`MapAsync`) is embedded as a small-step
transition system over the joint state of the reader goroutine, the worker
goroutines, the closing goroutine, the channels and the single consumer.
-/

/-- `item[E]` from channel.go: `{Data E; Err error}`.  `none` models Go's
`nil` error. -/
structure Item (E Err : Type) where
  data : E
  err : Option Err
deriving DecidableEq

/-- Mutable state of `channelIter[E]` (channel.go): the buffered `item`
field plus whether `cancel()` has been called on its context. -/
structure CIState (E Err : Type) where
  buf : Item E Err
  cancelled : Bool
deriving DecidableEq

/-- The outcome of the `select` in `channelIter.Next` (channel.go lines
56-69): either an item is received from `ci.c`, or the channel is observed
closed, or `ci.ctx.Done()` fires with cause `ci.ctx.Err()`. -/
inductive CIEvent (E Err : Type)
  | received (it : Item E Err)
  | closed
  | ctxDone (cause : Err)

/-- `channelIter.Next` (channel.go lines 52-70), as a function of the
current state and the select outcome.  Returns the new state and the
boolean result. -/
def channelIterNext (s : CIState E Err) (ev : CIEvent E Err) : CIState E Err × Bool :=
  match s.buf.err with
  | some _ => (s, false)            -- lines 53-55: sticky error guard
  | none =>
    match ev with
    | .received it =>
      -- lines 57-65: buffer the item; cancel if it carries an error;
      -- return `ci.item.Err == nil`.
      (⟨it, if it.err.isSome then true else s.cancelled⟩, it.err.isNone)
    | .closed => (s, false)         -- lines 58-60: `if !open { return false }`
    | .ctxDone cause =>
      -- lines 66-68: `ci.item.Err = ci.ctx.Err(); return false`
      (⟨⟨s.buf.data, some cause⟩, s.cancelled⟩, false)

/-- `channelIter.Get` (channel.go lines 72-74) with explicit state passing:
it reads `ci.item.Data` and performs no mutation. -/
def channelIterGet (s : CIState E Err) : E × CIState E Err :=
  (s.buf.data, s)

/-- `channelIter.Err` (channel.go lines 76-78) with explicit state passing:
it reads `ci.item.Err` and performs no mutation. -/
def channelIterErrCall (s : CIState E Err) : Option Err × CIState E Err :=
  (s.buf.err, s)

/-- Running `Next` over a list of successive select outcomes, collecting
the returned booleans. -/
def channelIterRun (s : CIState E Err) : List (CIEvent E Err) → CIState E Err × List Bool
  | [] => (s, [])
  | ev :: evs =>
    let r := channelIterNext s ev
    let rest := channelIterRun r.1 evs
    (rest.1, r.2 :: rest.2)

/-- Which branch of the `select` in `channelIter.Send`/`SendErr`
(channel.go lines 34-50) wins: either the send on `ci.c` completes, or
`ci.ctx.Done()` fires first. -/
inductive SendRace
  | delivered
  | cancelledFirst
deriving DecidableEq

/-- `channelIter.Send` (channel.go lines 34-41): returns the item pushed
onto the channel (if any) and the boolean result. -/
def channelIterSend (e : E) : SendRace → Option (Item E Err) × Bool
  | .delivered => (some ⟨e, none⟩, false)
  | .cancelledFirst => (none, true)

/-- `channelIter.SendErr` (channel.go lines 43-50); the item's `Data` field
is the Go zero value, modelled with `default`. -/
def channelIterSendErr [Inhabited E] (er : Err) : SendRace → Option (Item E Err) × Bool
  | .delivered => (some ⟨default, some er⟩, false)
  | .cancelledFirst => (none, true)

/-- `Empty.Next` (channel.go line 10). -/
def emptyNext : Bool := false

/-- `Empty.Err` (channel.go line 15). -/
def emptyErr (Err : Type) : Option Err := none

/-- The `Iterator` value returned by `NewChannelIterator` (channel.go
lines 80-110): either the `Empty` iterator or a live `channelIter`. -/
inductive BridgeSeq (E Err : Type)
  | empty
  | chan (st : CIState E Err)

/-- Result of constructing the fan-in bridge: the sequence plus the number
of goroutines scheduled by the constructor. -/
structure BridgeResult (E Err : Type) where
  seq : BridgeSeq E Err
  scheduled : Nat

/-- The Go zero value of the `channelIter` buffered item. -/
def ciInit [Inhabited E] : CIState E Err := ⟨⟨default, none⟩, false⟩

/-- `NewChannelIterator` (channel.go lines 80-110), as a function of the
producer list `gens` (the cancellation scope `_ctx` is passed through to
`context.WithCancel` and does not affect the branch taken).  With zero
producers it returns `Empty` and schedules no goroutines (lines 81-83);
with one producer it schedules that producer only (lines 90-96); with more
it schedules every producer plus a join/closer goroutine (lines 97-108). -/
def newChannelIterator (E Err : Type) [Inhabited E] {π γ : Type}
    (_scope : γ) (gens : List π) : BridgeResult E Err :=
  if gens.length = 0 then ⟨.empty, 0⟩
  else if gens.length = 1 then ⟨.chan ciInit, 1⟩
  else ⟨.chan ciInit, gens.length + 1⟩

/-- `advance` on the value returned by `NewChannelIterator`: dispatches to
`Empty.Next` or `channelIter.Next`. -/
def bridgeAdvance (b : BridgeSeq E Err) (ev : CIEvent E Err) : BridgeSeq E Err × Bool :=
  match b with
  | .empty => (.empty, emptyNext)
  | .chan s =>
    let r := channelIterNext s ev
    (.chan r.1, r.2)

/-- `error` on the value returned by `NewChannelIterator`. -/
def bridgeErr (b : BridgeSeq E Err) : Option Err :=
  match b with
  | .empty => emptyErr Err
  | .chan s => s.buf.err

/-- `Result[E]` from the worker-pool file: `{Value E; Err error}`. -/
structure PoolResult (A Err : Type) where
  value : A
  err : Option Err
deriving DecidableEq

/-- Mutable state of `receiveIter[E]`: the `current` field. -/
structure RIState (A Err : Type) where
  current : PoolResult A Err
deriving DecidableEq

/-- Outcome of the receive in `receiveIter.Next` (`for result := range
ri.c`): a result is received, or the channel is closed. -/
inductive RIEvent (A Err : Type)
  | received (r : PoolResult A Err)
  | closed

/-- `receiveIter.Next` (worker-pool file, lines 136-145). -/
def receiveIterNext (s : RIState A Err) (ev : RIEvent A Err) : RIState A Err × Bool :=
  match s.current.err with
  | some _ => (s, false)            -- lines 137-139: sticky error guard
  | none =>
    match ev with
    | .received r => (⟨r⟩, r.err.isNone)  -- lines 140-143
    | .closed => (s, false)               -- line 144

/-- Running `receiveIter.Next` over a list of receive outcomes. -/
def receiveIterRun (s : RIState A Err) : List (RIEvent A Err) → RIState A Err × List Bool
  | [] => (s, [])
  | ev :: evs =>
    let r := receiveIterNext s ev
    let rest := receiveIterRun r.1 evs
    (rest.1, r.2 :: rest.2)

/-- `receiveIter.Err` (worker-pool file, lines 151-153). -/
def receiveIterErr (s : RIState A Err) : Option Err := s.current.err

/-- `type Error string` (iterator.go line 132). -/
def GoError : Type := String

instance : DecidableEq GoError := fun a b => String.decEq a b

/-- `const Stop Error = "Stop Iteration"` (iterator.go line 138). -/
def stopIteration : GoError := "Stop Iteration"

/-- Mutable state of `Generator[E]`: the `val` and `err` fields. -/
structure GState (E : Type) where
  val : E
  err : Option GoError
deriving DecidableEq

/-- `Generator.Next` (iterator.go lines 155-161), translated exactly:
after calling `Generate` it returns `g.err != nil`. -/
def generatorNext (gen : E → E × Option GoError) (s : GState E) : GState E × Bool :=
  match s.err with
  | some _ => (s, false)
  | none =>
    let r := gen s.val
    (⟨r.1, r.2⟩, r.2.isSome)   -- line 160: `return g.err != nil`

/-- `Generator.Err` (iterator.go lines 167-172). -/
def generatorErr (s : GState E) : Option GoError :=
  match s.err with
  | none => none
  | some e => if e = stopIteration then none else some e

/-- A `Sequence` as a state machine: the three methods of the `Iterator`
interface (iterator.go lines 18-28), with `Next` returning the successor
state together with its boolean. -/
structure IterSM (σ E Err : Type) where
  next : σ → σ × Bool
  get : σ → E
  err : σ → Option Err

/-- Mutable state of `Slice[E]` (iterator.go lines 59-63). -/
structure SliceState (E : Type) where
  data : List E
  started : Bool
deriving DecidableEq

/-- `Slice.Next` (iterator.go lines 65-76). -/
def sliceNext (s : SliceState E) : SliceState E × Bool :=
  match s.data with
  | [] => (s, false)
  | _ :: rest =>
    if s.started then (⟨rest, s.started⟩, decide (0 < rest.length))
    else (⟨s.data, true⟩, true)

/-- `Slice.Get` (iterator.go lines 78-80): `s.Data[0]`. -/
def sliceGet [Inhabited E] (s : SliceState E) : E := s.data.headI

/-- The `Slice` iterator (iterator.go lines 59-84) packaged as a state
machine; `Slice.Err` always returns nil (lines 82-84). -/
def sliceIter (E Err : Type) [Inhabited E] : IterSM (SliceState E) E Err :=
  ⟨sliceNext, sliceGet, fun _ => none⟩

/-- The sequence of values obtained by pulling an iterator until `Next`
returns false, truncated at `fuel` pulls (the Go loops have no bound; the
fuel appears uniformly on both sides of every theorem below). -/
def pullTrace (it : IterSM σ E Err) : Nat → σ → List E
  | 0, _ => []
  | fuel + 1, s =>
    match it.next s with
    | (s', true) => it.get s' :: pullTrace it fuel s'
    | (_, false) => []

/-- The loop of `GetN` (iterator.go lines 94-99): `for i := 0; (n < 0 ||
i < n) && iter.Next(); i++ { result = append(result, iter.Get()) }`,
returning the collected values and the state after the loop. -/
def getNLoop (it : IterSM σ E Err) (n : Int) : Nat → Nat → σ → List E × σ
  | 0, _, s => ([], s)
  | fuel + 1, i, s =>
    if n < 0 ∨ (i : Int) < n then
      match it.next s with
      | (s', true) =>
        let r := getNLoop it n fuel (i + 1) s'
        (it.get s' :: r.1, r.2)
      | (s', false) => ([], s')
    else ([], s)

/-- `GetN` (iterator.go lines 94-99): runs the loop from `i = 0` and pairs
the collected values with `iter.Err()` on the post-loop state. -/
def getNGo (it : IterSM σ E Err) (n : Int) (fuel : Nat) (s : σ) : List E × Option Err :=
  let r := getNLoop it n fuel 0 s
  (r.1, it.err r.2)

/-- `ToSlice` (iterator.go lines 88-90): `return GetN(iter, -1)`. -/
def toSliceGo (it : IterSM σ E Err) (fuel : Nat) (s : σ) : List E × Option Err :=
  getNGo it (-1) fuel s

/-- The world visible to a `FilterMap` value: the state of the underlying
iterator (reached through the embedded `Iterator[BEFORE]` interface value,
which aliases the underlying iterator) and the `next` field. -/
structure FMWorld (σ A : Type) where
  inner : σ
  next : A
deriving DecidableEq

/-- The body of `FilterMap.Next` (iterator.go lines 273-282) run on the
receiver copy: advances the underlying iterator, and returns its final
state together with `some a` when `TestUpdate` accepted an element (the
value the body assigned to the copy's `next` field). -/
def filterMapNextBody (it : IterSM σ B Err) (tu : B → Bool × A) :
    Nat → σ → σ × Option A
  | 0, s => (s, none)
  | fuel + 1, s =>
    match it.next s with
    | (s', true) =>
      let r := tu (it.get s')
      if r.1 then (s', some r.2) else filterMapNextBody it tu fuel s'
    | (s', false) => (s', none)

/-- A call `fm.Next()` where `fm` has a **value receiver** (iterator.go
line 273: `func (fm FilterMap[BEFORE, AFTER]) Next() bool`): the body runs
on a copy of `fm`, so the assignment `fm.next = ...` is discarded when the
call returns, while the advancement of the underlying iterator persists
because the embedded interface value aliases it. -/
def filterMapNextCall (it : IterSM σ B Err) (tu : B → Bool × A) (fuel : Nat)
    (w : FMWorld σ A) : FMWorld σ A × Bool :=
  let r := filterMapNextBody it tu fuel w.inner
  (⟨r.1, w.next⟩, r.2.isSome)

/-- `FilterMap.Get` (iterator.go lines 284-286): returns `fm.next`. -/
def filterMapGet (w : FMWorld σ A) : A := w.next

/-! ## Helper lemmas -/

theorem channelIterNext_sticky {E Err : Type} (s : CIState E Err) (e : Err)
    (h : s.buf.err = some e) (ev : CIEvent E Err) :
    channelIterNext s ev = (s, false) := by
  unfold channelIterNext
  rw [h]

theorem channelIterRun_sticky {E Err : Type} (s : CIState E Err) (e : Err)
    (h : s.buf.err = some e) (evs : List (CIEvent E Err)) :
    channelIterRun s evs = (s, evs.map fun _ => false) := by
  induction evs with
  | nil => rfl
  | cons ev evs ih =>
    unfold channelIterRun
    rw [channelIterNext_sticky s e h ev]
    simp [ih]

theorem receiveIterNext_sticky {A Err : Type} (t : RIState A Err) (e : Err)
    (h : t.current.err = some e) (ev : RIEvent A Err) :
    receiveIterNext t ev = (t, false) := by
  unfold receiveIterNext
  rw [h]

theorem receiveIterRun_sticky {A Err : Type} (t : RIState A Err) (e : Err)
    (h : t.current.err = some e) (evs : List (RIEvent A Err)) :
    receiveIterRun t evs = (t, evs.map fun _ => false) := by
  induction evs with
  | nil => rfl
  | cons ev evs ih =>
    unfold receiveIterRun
    rw [receiveIterNext_sticky t e h ev]
    simp [ih]

/-! ## C1: per-call behaviour of the bridge's `Next` -/

/-- C1.  For `channelIter.Next` with no buffered error: receiving an
Outcome that carries an error buffers it, triggers cancellation and
returns false; observing the channel closed returns false with the error
still nil; receiving a non-error Outcome buffers it and returns true. -/
theorem channelIterNext_cases {E Err : Type} (s : CIState E Err)
    (h : s.buf.err = none) :
    (∀ it e, it.err = some e →
       channelIterNext s (.received it) = (⟨it, true⟩, false))
    ∧ (channelIterNext s .closed = (s, false)
       ∧ (channelIterNext s .closed).1.buf.err = none)
    ∧ (∀ it, it.err = none →
       channelIterNext s (.received it) = (⟨it, s.cancelled⟩, true)) := by
  refine ⟨?_, ⟨?_, ?_⟩, ?_⟩
  · intro it e he
    unfold channelIterNext
    rw [h]
    simp [he]
  · unfold channelIterNext
    rw [h]
  · unfold channelIterNext
    rw [h]
    simpa using h
  · intro it he
    unfold channelIterNext
    rw [h]
    simp [he]

/-- Witness for `channelIterNext_cases` at a concrete state. -/
theorem channelIterNext_cases_witness :
    (⟨⟨0, none⟩, false⟩ : CIState Nat Nat).buf.err = none
    ∧ channelIterNext (⟨⟨0, none⟩, false⟩ : CIState Nat Nat)
        (.received ⟨7, some 3⟩) = (⟨⟨7, some 3⟩, true⟩, false) :=
  ⟨rfl, (channelIterNext_cases (⟨⟨0, none⟩, false⟩ : CIState Nat Nat) rfl).1
    ⟨7, some 3⟩ 3 rfl⟩

/-! ## C2: sticky error invariant for bridge and pool sequences -/

/-- C2.  Once the buffered Outcome of the bridge's `channelIter` or the
pool's `receiveIter` carries an error, every subsequent `Next` call (over
any sequence of channel events) returns false, leaves the state untouched
(so nothing is received), and `Err` keeps returning the same error. -/
theorem sticky_error_invariant {E A Err : Type} :
    (∀ (s : CIState E Err) (e : Err) (evs : List (CIEvent E Err)),
       s.buf.err = some e →
       channelIterRun s evs = (s, evs.map fun _ => false)
       ∧ (channelIterErrCall s).1 = some e)
    ∧ (∀ (t : RIState A Err) (e : Err) (evs : List (RIEvent A Err)),
       t.current.err = some e →
       receiveIterRun t evs = (t, evs.map fun _ => false)
       ∧ receiveIterErr t = some e) := by
  constructor
  · intro s e evs h
    exact ⟨channelIterRun_sticky s e h evs, by simpa [channelIterErrCall] using h⟩
  · intro t e evs h
    exact ⟨receiveIterRun_sticky t e h evs, by simpa [receiveIterErr] using h⟩

/-- Witness for `sticky_error_invariant` at concrete states and events. -/
theorem sticky_error_invariant_witness :
    channelIterRun (⟨⟨0, some 5⟩, true⟩ : CIState Nat Nat)
        [.closed, .received ⟨1, none⟩] = (⟨⟨0, some 5⟩, true⟩, [false, false])
    ∧ receiveIterRun (⟨⟨0, some 5⟩⟩ : RIState Nat Nat)
        [.received ⟨2, none⟩, .closed] = (⟨⟨0, some 5⟩⟩, [false, false]) :=
  ⟨((@sticky_error_invariant Nat Nat Nat).1
      ⟨⟨0, some 5⟩, true⟩ 5 [.closed, .received ⟨1, none⟩] rfl).1,
   ((@sticky_error_invariant Nat Nat Nat).2
      ⟨⟨0, some 5⟩⟩ 5 [.received ⟨2, none⟩, .closed] rfl).1⟩

/-! ## C5: the Generator inverts the `Next` convention -/

/-- C5 (code bug).  Evaluating `Generator.Next` at a `Generate` function
that succeeds (`return i + 1, nil`, exactly the repository's own
`TestChain` generator): `Generate` returns a value with a nil error, yet
`Next` returns false, because line 160 returns `g.err != nil` instead of
`g.err == nil`.  Under the convention of the claim the call must return
true here. -/
theorem generatorNext_inverted_eval :
    (fun i => (i + 1, (none : Option GoError))) 0 = (1, none)
    ∧ generatorNext (fun i => (i + 1, none)) ⟨0, none⟩ = (⟨1, none⟩, false) :=
  ⟨rfl, rfl⟩

/-! ## C6: empty producer list yields the exhausted sequence -/

/-- C6.  For any cancellation scope, constructing the bridge with an empty
producer list returns the `Empty` sequence with zero scheduled tasks, and
that sequence's `advance` returns false on every event with `error`
nil. -/
theorem newChannelIterator_empty {E Err γ π : Type} [Inhabited E]
    (scope : γ) (gens : List π) (h : gens = []) :
    newChannelIterator E Err scope gens = ⟨.empty, 0⟩
    ∧ (∀ ev, bridgeAdvance (.empty : BridgeSeq E Err) ev = (.empty, false))
    ∧ bridgeErr (.empty : BridgeSeq E Err) = none := by
  subst h
  refine ⟨rfl, fun ev => rfl, rfl⟩

/-- Witness for `newChannelIterator_empty` at concrete types. -/
theorem newChannelIterator_empty_witness :
    newChannelIterator Nat Nat () ([] : List Unit) = ⟨.empty, 0⟩
    ∧ bridgeErr (.empty : BridgeSeq Nat Nat) = none :=
  ⟨(newChannelIterator_empty (E := Nat) () ([] : List Unit) rfl).1,
   (newChannelIterator_empty (E := Nat) () ([] : List Unit) rfl).2.2⟩

/-! ## C7: Sink send semantics -/

/-- C7.  Every `Send`/`SendErr` call either hands its Outcome to the merge
channel and reports not-cancelled (returns false), exactly when the send
branch of the select wins, or — when the cancellation token fires first —
pushes nothing and reports cancelled (returns true). -/
theorem sink_send_dichotomy {E Err : Type} [Inhabited E]
    (e : E) (er : Err) (race : SendRace) :
    (((channelIterSend e race : Option (Item E Err) × Bool)
          = (some ⟨e, none⟩, false) ∧ race = .delivered)
     ∨ ((channelIterSend e race : Option (Item E Err) × Bool)
          = (none, true) ∧ race = .cancelledFirst))
    ∧ ((channelIterSendErr (E := E) er race = (some ⟨default, some er⟩, false)
        ∧ race = .delivered)
     ∨ (channelIterSendErr (E := E) er race = (none, true)
        ∧ race = .cancelledFirst)) := by
  cases race
  · exact ⟨Or.inl ⟨rfl, rfl⟩, Or.inl ⟨rfl, rfl⟩⟩
  · exact ⟨Or.inr ⟨rfl, rfl⟩, Or.inr ⟨rfl, rfl⟩⟩

/-! ## C9: `Get`/`Err` are read-only -/

/-- An interleaved sequence of `Get` and `Err` calls. -/
inductive ReadOp
  | get
  | err

/-- Threads the iterator state through a list of `Get`/`Err` calls. -/
def channelIterReads (s : CIState E Err) : List ReadOp → CIState E Err
  | [] => s
  | op :: ops =>
    channelIterReads
      (match op with
       | .get => (channelIterGet s).2
       | .err => (channelIterErrCall s).2) ops

theorem channelIterReads_id {E Err : Type} (s : CIState E Err) :
    ∀ ops : List ReadOp, channelIterReads s ops = s := by
  intro ops
  induction ops with
  | nil => rfl
  | cons op ops ih => cases op <;> exact ih

/-- C9.  After an `advance` that returned true, `Get` and `Err` leave the
iterator state untouched, and any interleaving of `Get`/`Err` calls before
the next `advance` keeps returning the same buffered value and error. -/
theorem channelIter_reads_stable {E Err : Type} (s s' : CIState E Err)
    (ev : CIEvent E Err) (_h : channelIterNext s ev = (s', true)) :
    (channelIterGet s').2 = s'
    ∧ (channelIterErrCall s').2 = s'
    ∧ ∀ ops : List ReadOp,
        channelIterReads s' ops = s'
        ∧ (channelIterGet (channelIterReads s' ops)).1 = (channelIterGet s').1
        ∧ (channelIterErrCall (channelIterReads s' ops)).1
            = (channelIterErrCall s').1 := by
  refine ⟨rfl, rfl, fun ops => ⟨channelIterReads_id s' ops, ?_, ?_⟩⟩
  · rw [channelIterReads_id s' ops]
  · rw [channelIterReads_id s' ops]

/-- Witness for `channelIter_reads_stable` at a concrete advance. -/
theorem channelIter_reads_stable_witness :
    channelIterNext (⟨⟨0, none⟩, false⟩ : CIState Nat Nat)
        (.received ⟨42, none⟩) = (⟨⟨42, none⟩, false⟩, true)
    ∧ channelIterReads (⟨⟨42, none⟩, false⟩ : CIState Nat Nat)
        [.get, .err, .get] = ⟨⟨42, none⟩, false⟩ :=
  ⟨rfl, ((channelIter_reads_stable ⟨⟨0, none⟩, false⟩ ⟨⟨42, none⟩, false⟩
      (.received ⟨42, none⟩) rfl).2.2 [.get, .err, .get]).1⟩

/-! ## C10: FilterMap's value receiver drops the accepted value -/

/-- C10 (code bug).  Evaluating the `FilterMap` model at a wrapped
`Slice{[1]}` with `TestUpdate x = (true, x + 1)`: `Next` returns true and
`TestUpdate` produced the AFTER value `2`, but the following `Get` returns
`0` — the zero value of AFTER — because `Next`'s value receiver discarded
the write to `fm.next`. -/
theorem filterMap_get_zero_eval :
    (filterMapNextCall (sliceIter Nat Unit)
        (fun x => (true, x + 1)) 3 ⟨⟨[1], false⟩, 0⟩).2 = true
    ∧ filterMapGet (filterMapNextCall (sliceIter Nat Unit)
        (fun x => (true, x + 1)) 3 ⟨⟨[1], false⟩, 0⟩).1 = 0
    ∧ (fun x => (true, x + 1)) 1 = (true, 2) := by
  refine ⟨rfl, rfl, rfl⟩

/-! ## The `MapAsync` worker pool (worker-pool file, lines 156-208)

`MapAsync` spawns one reader goroutine, `n` worker goroutines and one
closing goroutine, communicating over the unbuffered channels `in` and
`out` and the broadcast channel `quit`; the returned `receiveIter` is
driven by a single contract-obeying consumer.  The system is embedded as
a small-step transition system: one transition per atomic Go action, a
rendezvous on an unbuffered channel being one joint transition of the
sender and the receiver.  `quitCloseCount` counts executions of
`close(quit)`; a count above one is Go's double-close fault. -/

/-- Program counter of the reader goroutine (lines 162-180). -/
inductive ReaderPC (B Err : Type)
  | loop                -- about to call `iter.Next()` (line 165)
  | send (v : B)        -- at `select { in <- v | <-quit }` (lines 166-170)
  | errsend (e : Err)   -- at `select { out <- Result{Err: e} | <-quit }` (lines 173-177)
  | closequit           -- sent the error result, about to `close(quit)` (line 175)
  | closein             -- about to `close(in)` (line 179)
  | done

/-- Program counter of a worker goroutine (lines 183-199). -/
inductive WorkerPC (A Err : Type)
  | recv                          -- at `for element := range in` (line 185)
  | send (r : PoolResult A Err)   -- at `select { out <- r | <-quit }` (lines 187-197)
  | closequit                     -- sent an error result, about to `close(quit)` (line 193)
  | done

/-- Program counter of the consumer driving the returned `receiveIter`. -/
inductive ConsumerPC
  | recv   -- inside `Next`, at the receive from `out` (line 140)
  | done   -- `Next` returned false; the contract-obeying consumer stops

/-- The parameters of one `MapAsync` call: the transform and the terminal
error of the (finite, contract-obeying) source sequence. -/
structure PoolEnv (B A Err : Type) where
  update : B → A × Option Err
  srcErr : Option Err

/-- Joint state of the `MapAsync` tasks, channels and consumer. -/
structure PoolState (B A Err : Type) where
  readerPc : ReaderPC B Err
  srcRem : List B          -- values the source has not yet produced
  srcDone : Bool           -- the source's `Next` has returned false
  workers : List (WorkerPC A Err)
  inClosed : Bool
  quitClosed : Bool
  quitCloseCount : Nat     -- number of `close(quit)` executions
  outClosed : Bool         -- the `wg.Wait(); close(out)` goroutine has run
  consPc : ConsumerPC
  current : PoolResult A Err   -- the consumer's `receiveIter.current`
  acc : List A                 -- values the consumer has collected

/-- `iter.Err()` of the modelled source sequence: nil until `Next` has
returned false, then the source's terminal error — followed by the
dispatch on lines 172-178 choosing between the error send and `close(in)`. -/
def readerAfterLoop (srcDone : Bool) (srcErr : Option Err) : ReaderPC B Err :=
  match (if srcDone then srcErr else none) with
  | some e => .errsend e
  | none => .closein

/-- The result a worker computes for element `v` (lines 186-191):
`updated, err := update(element)` packed as `Result{Value: updated, Err: err}`. -/
def workerResult (env : PoolEnv B A Err) (v : B) : PoolResult A Err :=
  ⟨(env.update v).1, (env.update v).2⟩

/-- One atomic step of the `MapAsync` system. -/
inductive PoolStep [Inhabited A] (env : PoolEnv B A Err) :
    PoolState B A Err → PoolState B A Err → Prop
  /-- Line 165: `iter.Next()` returns true; the reader holds the value. -/
  | readNextSome (s : PoolState B A Err) (v : B) (rest : List B) :
      s.readerPc = .loop → s.srcRem = v :: rest →
      PoolStep env s { s with readerPc := .send v, srcRem := rest }
  /-- Line 165: `iter.Next()` returns false; lines 172-178 dispatch on
  `iter.Err()`. -/
  | readNextNone (s : PoolState B A Err) :
      s.readerPc = .loop → s.srcRem = [] →
      PoolStep env s { s with readerPc := readerAfterLoop true env.srcErr,
                              srcDone := true }
  /-- Line 167 with line 185: rendezvous of `in <- v` with worker `i`'s
  receive; the worker computes `update(v)` locally and reaches its select. -/
  | rendezvousIn (s : PoolState B A Err) (i : Nat) (v : B) :
      s.readerPc = .send v → s.workers[i]? = some .recv →
      PoolStep env s { s with readerPc := .loop,
                              workers := s.workers.set i (.send (workerResult env v)) }
  /-- Lines 168-169: the `<-quit` branch wins; `break READ`, then the
  `iter.Err()` dispatch of lines 172-178. -/
  | readSendQuit (s : PoolState B A Err) (v : B) :
      s.readerPc = .send v → s.quitClosed = true →
      PoolStep env s { s with readerPc := readerAfterLoop s.srcDone env.srcErr }
  /-- Line 174 with line 140: the reader's terminal error result reaches
  the consumer, whose `Next` returns false. -/
  | readErrDeliver (s : PoolState B A Err) (e : Err) :
      s.readerPc = .errsend e → s.consPc = .recv → s.outClosed = false →
      PoolStep env s { s with readerPc := .closequit, consPc := .done,
                              current := ⟨default, some e⟩ }
  /-- Line 176: the `<-quit` branch wins; the error send is abandoned. -/
  | readErrQuit (s : PoolState B A Err) (e : Err) :
      s.readerPc = .errsend e → s.quitClosed = true →
      PoolStep env s { s with readerPc := .closein }
  /-- Line 175: the reader executes `close(quit)`. -/
  | readCloseQuit (s : PoolState B A Err) :
      s.readerPc = .closequit →
      PoolStep env s { s with readerPc := .closein, quitClosed := true,
                              quitCloseCount := s.quitCloseCount + 1 }
  /-- Line 179: the reader executes `close(in)` and returns. -/
  | readCloseIn (s : PoolState B A Err) :
      s.readerPc = .closein →
      PoolStep env s { s with readerPc := .done, inClosed := true }
  /-- Line 185: `range in` observes the closed, drained channel; the
  worker returns. -/
  | workerRecvClosed (s : PoolState B A Err) (i : Nat) :
      s.workers[i]? = some .recv → s.inClosed = true →
      PoolStep env s { s with workers := s.workers.set i .done }
  /-- Lines 188-194 with line 140: worker `i`'s nil-error result reaches
  the consumer, who collects the value and keeps pulling; the worker skips
  the `close(quit)` branch (line 192 false) and resumes its loop. -/
  | workerDeliverOk (s : PoolState B A Err) (i : Nat) (r : PoolResult A Err) :
      s.workers[i]? = some (.send r) → r.err = none →
      s.consPc = .recv → s.outClosed = false →
      PoolStep env s { s with workers := s.workers.set i .recv,
                              current := r, acc := s.acc ++ [r.value] }
  /-- Lines 188-194 with line 140: worker `i`'s error result reaches the
  consumer, whose `Next` returns false (sticky); line 192 is true, so the
  worker proceeds to `close(quit)` before resuming its loop. -/
  | workerDeliverErr (s : PoolState B A Err) (i : Nat) (r : PoolResult A Err) (e : Err) :
      s.workers[i]? = some (.send r) → r.err = some e →
      s.consPc = .recv → s.outClosed = false →
      PoolStep env s { s with workers := s.workers.set i .closequit,
                              consPc := .done, current := r }
  /-- Lines 195-196: the `<-quit` branch wins; the worker returns. -/
  | workerSendQuit (s : PoolState B A Err) (i : Nat) (r : PoolResult A Err) :
      s.workers[i]? = some (.send r) → s.quitClosed = true →
      PoolStep env s { s with workers := s.workers.set i .done }
  /-- Line 193: worker `i` executes `close(quit)` and resumes its loop. -/
  | workerCloseQuit (s : PoolState B A Err) (i : Nat) :
      s.workers[i]? = some .closequit →
      PoolStep env s { s with workers := s.workers.set i .recv, quitClosed := true,
                              quitCloseCount := s.quitCloseCount + 1 }
  /-- Lines 201-204: `wg.Wait()` returns once the reader and all workers
  have, and `close(out)` runs. -/
  | closeOut (s : PoolState B A Err) :
      s.readerPc = .done → (∀ pc ∈ s.workers, pc = .done) → s.outClosed = false →
      PoolStep env s { s with outClosed := true }
  /-- Line 140/144: the consumer's receive observes `out` closed; `Next`
  returns false and the consumer stops. -/
  | consRecvClosed (s : PoolState B A Err) :
      s.consPc = .recv → s.outClosed = true →
      PoolStep env s { s with consPc := .done }

/-- The state right after `MapAsync(iter, update, n)` returns: every
goroutine at its entry point, channels open, the consumer about to pull. -/
def poolInit [Inhabited A] (srcData : List B) (n : Nat) : PoolState B A Err :=
  { readerPc := .loop, srcRem := srcData, srcDone := false,
    workers := List.replicate n .recv, inClosed := false, quitClosed := false,
    quitCloseCount := 0, outClosed := false, consPc := .recv,
    current := ⟨default, none⟩, acc := [] }

/-- Every task has returned, `out` is closed and the consumer has
stopped. -/
def PoolFinal (s : PoolState B A Err) : Prop :=
  s.readerPc = .done ∧ (∀ pc ∈ s.workers, pc = .done)
    ∧ s.outClosed = true ∧ s.consPc = .done

/-- Reachability from the initial state. -/
def PoolReachable [Inhabited A] (env : PoolEnv B A Err) (srcData : List B)
    (n : Nat) (s : PoolState B A Err) : Prop :=
  Relation.ReflTransGen (PoolStep env) (poolInit srcData n) s

/-! ### Invariants of the pool -/

/-- 1 when the reader is between its error send and its `close(quit)`. -/
def readerCloserFlag : ReaderPC B Err → Nat
  | .closequit => 1
  | _ => 0

/-- Whether a worker is between its error send and its `close(quit)`. -/
def isCloser : WorkerPC A Err → Bool
  | .closequit => true
  | _ => false

/-- 1 when the consumer's buffered result carries an error. -/
def errFlag : Option Err → Nat
  | none => 0
  | some _ => 1

theorem errFlag_le_one (o : Option Err) : errFlag o ≤ 1 := by
  cases o <;> simp [errFlag]

theorem readerAfterLoop_flag (d : Bool) (se : Option Err) :
    readerCloserFlag (readerAfterLoop (B := B) d se) = 0 := by
  unfold readerAfterLoop
  rcases (if d then se else none) with _ | e <;> rfl

theorem readerAfterLoop_ne_done (d : Bool) (se : Option Err) :
    readerAfterLoop (B := B) d se ≠ ReaderPC.done := by
  unfold readerAfterLoop
  rcases (if d then se else none) with _ | e <;> simp

theorem countP_set_balance {α : Type} (p : α → Bool) :
    ∀ (l : List α) (i : Nat) (a b : α), l[i]? = some a →
      (l.set i b).countP p + (if p a then 1 else 0)
        = l.countP p + (if p b then 1 else 0)
  | [], i, _, _, h => by simp at h
  | x :: xs, 0, a, b, h => by
    simp only [List.getElem?_cons_zero, Option.some.injEq] at h
    subst h
    simp only [List.set_cons_zero, List.countP_cons]
    omega
  | x :: xs, i + 1, a, b, h => by
    simp only [List.getElem?_cons_succ] at h
    have ih := countP_set_balance p xs i a b h
    simp only [List.set_cons_succ, List.countP_cons]
    omega

theorem set_ne_nil {α : Type} (l : List α) (i : Nat) (b : α) (h : l ≠ []) :
    l.set i b ≠ [] := by
  intro hc
  apply h
  have := List.length_set l i b
  rw [hc] at this
  exact List.eq_nil_of_length_eq_zero this.symm

/-- The inductive invariant of the `MapAsync` transition system.

`closerBalance` is the heart of the double-close argument: tasks poised to
`close(quit)` plus completed closes are jointly bounded by whether an
error result has reached the (sticky) consumer — of which there can be at
most one. -/
structure PoolInv (s : PoolState B A Err) : Prop where
  consClean : s.consPc = .recv → s.current.err = none
  closerBalance :
    readerCloserFlag s.readerPc + List.countP isCloser s.workers
      + s.quitCloseCount = errFlag s.current.err
  quitIff : s.quitClosed = true ↔ 1 ≤ s.quitCloseCount
  outDone : s.outClosed = true →
    s.readerPc = .done ∧ ∀ pc ∈ s.workers, pc = .done
  inIff : s.inClosed = true ↔ s.readerPc = .done
  wDone : (∃ pc ∈ s.workers, pc = .done) →
    s.inClosed = true ∨ s.quitClosed = true
  consDone : s.consPc = .done → s.current.err = none → s.outClosed = true
  wNonempty : s.workers ≠ []

theorem countP_isCloser_replicate (n : Nat) :
    List.countP isCloser (List.replicate n (.recv : WorkerPC A Err)) = 0 := by
  induction n with
  | zero => rfl
  | succ n ih => simp [List.replicate, List.countP_cons, ih, isCloser]

theorem poolInv_init [Inhabited A] (srcData : List B) (n : Nat) (hn : 1 ≤ n) :
    PoolInv (poolInit srcData n : PoolState B A Err) := by
  refine ⟨fun _ => rfl, ?_, by simp [poolInit], ?_, by simp [poolInit], ?_, ?_, ?_⟩
  · simp [poolInit, readerCloserFlag, errFlag, countP_isCloser_replicate]
  · intro h
    simp [poolInit] at h
  · intro ⟨pc, hmem, hpc⟩
    have := List.eq_of_mem_replicate hmem
    rw [this] at hpc
    exact absurd hpc (by simp)
  · intro h
    simp [poolInit] at h
  · have : 0 < n := hn
    simp [poolInit]
    omega


theorem poolInv_step [Inhabited A] {env : PoolEnv B A Err}
    {s s' : PoolState B A Err} (inv : PoolInv s) (st : PoolStep env s s') :
    PoolInv s' := by
  cases st with
  | readNextSome v rest h1 h2 =>
    refine ⟨inv.consClean, ?_, inv.quitIff, ?_, ?_, inv.wDone, inv.consDone,
      inv.wNonempty⟩
    · dsimp only
      have hb := inv.closerBalance
      rw [h1] at hb
      simp only [readerCloserFlag] at hb ⊢
      omega
    · dsimp only
      intro ho
      have hd := (inv.outDone ho).1
      rw [h1] at hd
      simp at hd
    · dsimp only
      constructor
      · intro hi
        have hd := inv.inIff.mp hi
        rw [h1] at hd
        simp at hd
      · intro hd
        simp at hd
  | readNextNone h1 h2 =>
    refine ⟨inv.consClean, ?_, inv.quitIff, ?_, ?_, inv.wDone, inv.consDone,
      inv.wNonempty⟩
    · dsimp only
      have hb := inv.closerBalance
      rw [h1] at hb
      rw [readerAfterLoop_flag]
      simpa [readerCloserFlag] using hb
    · dsimp only
      intro ho
      have hd := (inv.outDone ho).1
      rw [h1] at hd
      simp at hd
    · dsimp only
      constructor
      · intro hi
        have hd := inv.inIff.mp hi
        rw [h1] at hd
        simp at hd
      · intro hd
        exact absurd hd (readerAfterLoop_ne_done _ _)
  | rendezvousIn i v h1 h2 =>
    refine ⟨inv.consClean, ?_, inv.quitIff, ?_, ?_, ?_, inv.consDone,
      set_ne_nil _ _ _ inv.wNonempty⟩
    · dsimp only
      have hc := countP_set_balance isCloser s.workers i _
        (.send (workerResult env v)) h2
      have hb := inv.closerBalance
      rw [h1] at hb
      simp [isCloser] at hc
      simp only [readerCloserFlag] at hb ⊢
      omega
    · dsimp only
      intro ho
      have hd := (inv.outDone ho).1
      rw [h1] at hd
      simp at hd
    · dsimp only
      constructor
      · intro hi
        have hd := inv.inIff.mp hi
        rw [h1] at hd
        simp at hd
      · intro hd
        simp at hd
    · dsimp only
      rintro ⟨pc, hmem, hpc⟩
      rcases List.mem_or_eq_of_mem_set hmem with hm | he
      · exact inv.wDone ⟨pc, hm, hpc⟩
      · rw [he] at hpc
        simp at hpc
  | readSendQuit v h1 h2 =>
    refine ⟨inv.consClean, ?_, inv.quitIff, ?_, ?_, inv.wDone, inv.consDone,
      inv.wNonempty⟩
    · dsimp only
      have hb := inv.closerBalance
      rw [h1] at hb
      rw [readerAfterLoop_flag]
      simpa [readerCloserFlag] using hb
    · dsimp only
      intro ho
      have hd := (inv.outDone ho).1
      rw [h1] at hd
      simp at hd
    · dsimp only
      constructor
      · intro hi
        have hd := inv.inIff.mp hi
        rw [h1] at hd
        simp at hd
      · intro hd
        exact absurd hd (readerAfterLoop_ne_done _ _)
  | readErrDeliver e h1 h2 h3 =>
    refine ⟨?_, ?_, inv.quitIff, ?_, ?_, inv.wDone, ?_, inv.wNonempty⟩
    · dsimp only
      intro h
      simp at h
    · dsimp only
      have hb := inv.closerBalance
      rw [h1, inv.consClean h2] at hb
      simp only [readerCloserFlag, errFlag] at hb ⊢
      omega
    · dsimp only
      intro ho
      rw [h3] at ho
      simp at ho
    · dsimp only
      constructor
      · intro hi
        have hd := inv.inIff.mp hi
        rw [h1] at hd
        simp at hd
      · intro hd
        simp at hd
    · dsimp only
      intro _ hc2
      simp at hc2
  | readErrQuit e h1 h2 =>
    refine ⟨inv.consClean, ?_, inv.quitIff, ?_, ?_, inv.wDone, inv.consDone,
      inv.wNonempty⟩
    · dsimp only
      have hb := inv.closerBalance
      rw [h1] at hb
      simp only [readerCloserFlag] at hb ⊢
      omega
    · dsimp only
      intro ho
      have hd := (inv.outDone ho).1
      rw [h1] at hd
      simp at hd
    · dsimp only
      constructor
      · intro hi
        have hd := inv.inIff.mp hi
        rw [h1] at hd
        simp at hd
      · intro hd
        simp at hd
  | readCloseQuit h1 =>
    refine ⟨inv.consClean, ?_, ⟨fun _ => Nat.succ_le_succ (Nat.zero_le _),
      fun _ => rfl⟩, ?_, ?_, fun _ => Or.inr rfl, inv.consDone, inv.wNonempty⟩
    · dsimp only
      have hb := inv.closerBalance
      rw [h1] at hb
      simp only [readerCloserFlag] at hb ⊢
      omega
    · dsimp only
      intro ho
      have hd := (inv.outDone ho).1
      rw [h1] at hd
      simp at hd
    · dsimp only
      constructor
      · intro hi
        have hd := inv.inIff.mp hi
        rw [h1] at hd
        simp at hd
      · intro hd
        simp at hd
  | readCloseIn h1 =>
    refine ⟨inv.consClean, ?_, inv.quitIff, ?_, ?_, fun _ => Or.inl rfl,
      inv.consDone, inv.wNonempty⟩
    · dsimp only
      have hb := inv.closerBalance
      rw [h1] at hb
      simp only [readerCloserFlag] at hb ⊢
      omega
    · dsimp only
      intro ho
      have hd := (inv.outDone ho).1
      rw [h1] at hd
      simp at hd
    · dsimp only
      simp
  | workerRecvClosed i h1 h2 =>
    refine ⟨inv.consClean, ?_, inv.quitIff, ?_, inv.inIff, fun _ => Or.inl h2,
      inv.consDone, set_ne_nil _ _ _ inv.wNonempty⟩
    · dsimp only
      have hc := countP_set_balance isCloser s.workers i _ .done h1
      have hb := inv.closerBalance
      simp [isCloser] at hc
      omega
    · dsimp only
      intro ho
      have hall := (inv.outDone ho).2
      have hd := hall _ (List.getElem?_mem h1)
      simp at hd
  | workerDeliverOk i r h1 h2 h3 h4 =>
    refine ⟨fun _ => h2, ?_, inv.quitIff, ?_, inv.inIff, ?_, ?_,
      set_ne_nil _ _ _ inv.wNonempty⟩
    · dsimp only
      have hc := countP_set_balance isCloser s.workers i _ .recv h1
      have hb := inv.closerBalance
      rw [inv.consClean h3] at hb
      rw [h2]
      simp [isCloser] at hc
      simp only [errFlag] at hb ⊢
      omega
    · dsimp only
      intro ho
      rw [h4] at ho
      simp at ho
    · dsimp only
      rintro ⟨pc, hmem, hpc⟩
      rcases List.mem_or_eq_of_mem_set hmem with hm | he
      · exact inv.wDone ⟨pc, hm, hpc⟩
      · rw [he] at hpc
        simp at hpc
    · dsimp only
      intro hcd
      rw [h3] at hcd
      simp at hcd
  | workerDeliverErr i r e h1 h2 h3 h4 =>
    refine ⟨?_, ?_, inv.quitIff, ?_, inv.inIff, ?_, ?_,
      set_ne_nil _ _ _ inv.wNonempty⟩
    · dsimp only
      intro h
      simp at h
    · dsimp only
      have hc := countP_set_balance isCloser s.workers i _ .closequit h1
      have hb := inv.closerBalance
      rw [inv.consClean h3] at hb
      rw [h2]
      simp [isCloser] at hc
      simp only [errFlag] at hb ⊢
      omega
    · dsimp only
      intro ho
      rw [h4] at ho
      simp at ho
    · dsimp only
      rintro ⟨pc, hmem, hpc⟩
      rcases List.mem_or_eq_of_mem_set hmem with hm | he
      · exact inv.wDone ⟨pc, hm, hpc⟩
      · rw [he] at hpc
        simp at hpc
    · dsimp only
      intro _ hc2
      rw [h2] at hc2
      simp at hc2
  | workerSendQuit i r h1 h2 =>
    refine ⟨inv.consClean, ?_, inv.quitIff, ?_, inv.inIff, fun _ => Or.inr h2,
      inv.consDone, set_ne_nil _ _ _ inv.wNonempty⟩
    · dsimp only
      have hc := countP_set_balance isCloser s.workers i _ .done h1
      have hb := inv.closerBalance
      simp [isCloser] at hc
      omega
    · dsimp only
      intro ho
      have hall := (inv.outDone ho).2
      have hd := hall _ (List.getElem?_mem h1)
      simp at hd
  | workerCloseQuit i h1 =>
    refine ⟨inv.consClean, ?_, ⟨fun _ => Nat.succ_le_succ (Nat.zero_le _),
      fun _ => rfl⟩, ?_, inv.inIff, fun _ => Or.inr rfl, inv.consDone,
      set_ne_nil _ _ _ inv.wNonempty⟩
    · dsimp only
      have hc := countP_set_balance isCloser s.workers i _ .recv h1
      have hb := inv.closerBalance
      simp [isCloser] at hc
      omega
    · dsimp only
      intro ho
      have hall := (inv.outDone ho).2
      have hd := hall _ (List.getElem?_mem h1)
      simp at hd
  | closeOut h1 h2 h3 =>
    exact ⟨inv.consClean, inv.closerBalance, inv.quitIff, fun _ => ⟨h1, h2⟩,
      inv.inIff, inv.wDone, fun _ _ => rfl, inv.wNonempty⟩
  | consRecvClosed h1 h2 =>
    refine ⟨?_, inv.closerBalance, inv.quitIff, inv.outDone, inv.inIff,
      inv.wDone, fun _ _ => h2, inv.wNonempty⟩
    · dsimp only
      intro h
      simp at h

theorem poolInv_reachable [Inhabited A] {env : PoolEnv B A Err}
    {srcData : List B} {n : Nat} {s : PoolState B A Err} (hn : 1 ≤ n)
    (h : PoolReachable env srcData n s) : PoolInv s := by
  induction h with
  | refl => exact poolInv_init srcData n hn
  | tail _ hstep ih => exact poolInv_step ih hstep

theorem workers_classify (ws : List (WorkerPC A Err)) :
    (∃ i : Nat, ws[i]? = some WorkerPC.recv)
    ∨ (∃ (i : Nat) (r : PoolResult A Err), ws[i]? = some (WorkerPC.send r))
    ∨ (∃ i : Nat, ws[i]? = some WorkerPC.closequit)
    ∨ (∀ pc ∈ ws, pc = WorkerPC.done) := by
  by_cases hall : ∀ pc ∈ ws, pc = .done
  · exact Or.inr (Or.inr (Or.inr hall))
  · push_neg at hall
    obtain ⟨pc, hmem, hne2⟩ := hall
    obtain ⟨i, hi⟩ := List.mem_iff_getElem?.mp hmem
    cases pc with
    | recv => exact Or.inl ⟨i, hi⟩
    | send r => exact Or.inr (Or.inl ⟨i, r, hi⟩)
    | closequit => exact Or.inr (Or.inr (Or.inl ⟨i, hi⟩))
    | done => exact absurd rfl hne2

theorem exists_closer_of_countP_pos (ws : List (WorkerPC A Err))
    (h : 0 < List.countP isCloser ws) :
    ∃ i : Nat, ws[i]? = some WorkerPC.closequit := by
  obtain ⟨pc, hmem, hp⟩ := List.countP_pos_iff.mp h
  have hpc : pc = .closequit := by
    cases pc with
    | recv => simp [isCloser] at hp
    | send r => simp [isCloser] at hp
    | closequit => rfl
    | done => simp [isCloser] at hp
  rw [hpc] at hmem
  exact List.mem_iff_getElem?.mp hmem

theorem step_of_worker_send [Inhabited A] {env : PoolEnv B A Err}
    {s : PoolState B A Err} (inv : PoolInv s) (i : Nat) (r : PoolResult A Err)
    (hi : s.workers[i]? = some (WorkerPC.send r))
    (hflag : readerCloserFlag s.readerPc = 0) :
    ∃ s', PoolStep env s s' := by
  by_cases hq : s.quitClosed = true
  · exact ⟨_, .workerSendQuit s i r hi hq⟩
  · have hout : s.outClosed = false := by
      cases ho : s.outClosed
      · rfl
      · exfalso
        have hall := (inv.outDone ho).2
        have hd := hall _ (List.getElem?_mem hi)
        simp at hd
    cases hc : s.consPc with
    | recv =>
      cases hre : r.err with
      | none => exact ⟨_, .workerDeliverOk s i r hi hre hc hout⟩
      | some e => exact ⟨_, .workerDeliverErr s i r e hi hre hc hout⟩
    | done =>
      cases hcur : s.current.err with
      | none =>
        exfalso
        have ho := inv.consDone hc hcur
        have hall := (inv.outDone ho).2
        have hd := hall _ (List.getElem?_mem hi)
        simp at hd
      | some e =>
        have hb := inv.closerBalance
        rw [hcur, hflag] at hb
        have hcount : s.quitCloseCount = 0 := by
          by_contra hc0
          exact hq (inv.quitIff.mpr (Nat.one_le_iff_ne_zero.mpr hc0))
        have hpos : 0 < List.countP isCloser s.workers := by
          simp only [errFlag] at hb
          omega
        obtain ⟨j, hj⟩ := exists_closer_of_countP_pos s.workers hpos
        exact ⟨_, .workerCloseQuit s j hj⟩

theorem pool_progress [Inhabited A] (env : PoolEnv B A Err)
    (s : PoolState B A Err) (inv : PoolInv s) :
    PoolFinal s ∨ ∃ s', PoolStep env s s' := by
  cases hr : s.readerPc with
  | loop =>
    right
    cases hsr : s.srcRem with
    | nil => exact ⟨_, .readNextNone s hr hsr⟩
    | cons v rest => exact ⟨_, .readNextSome s v rest hr hsr⟩
  | send v =>
    right
    by_cases hq : s.quitClosed = true
    · exact ⟨_, .readSendQuit s v hr hq⟩
    · rcases workers_classify s.workers with ⟨i, hi⟩ | ⟨i, r, hi⟩ | ⟨i, hi⟩ | hall
      · exact ⟨_, .rendezvousIn s i v hr hi⟩
      · exact step_of_worker_send inv i r hi (by rw [hr]; rfl)
      · exact ⟨_, .workerCloseQuit s i hi⟩
      · exfalso
        obtain ⟨pc, hmem⟩ := List.exists_mem_of_ne_nil s.workers inv.wNonempty
        rcases inv.wDone ⟨pc, hmem, hall pc hmem⟩ with hin | hqq
        · have hd := inv.inIff.mp hin
          rw [hr] at hd
          simp at hd
        · exact hq hqq
  | errsend e =>
    right
    by_cases hq : s.quitClosed = true
    · exact ⟨_, .readErrQuit s e hr hq⟩
    · cases hc : s.consPc with
      | recv =>
        have hout : s.outClosed = false := by
          cases ho : s.outClosed
          · rfl
          · exfalso
            have hd := (inv.outDone ho).1
            rw [hr] at hd
            simp at hd
        exact ⟨_, .readErrDeliver s e hr hc hout⟩
      | done =>
        cases hcur : s.current.err with
        | none =>
          exfalso
          have ho := inv.consDone hc hcur
          have hd := (inv.outDone ho).1
          rw [hr] at hd
          simp at hd
        | some e2 =>
          have hb := inv.closerBalance
          rw [hcur, hr] at hb
          have hcount : s.quitCloseCount = 0 := by
            by_contra hc0
            exact hq (inv.quitIff.mpr (Nat.one_le_iff_ne_zero.mpr hc0))
          have hpos : 0 < List.countP isCloser s.workers := by
            simp only [readerCloserFlag, errFlag] at hb
            omega
          obtain ⟨j, hj⟩ := exists_closer_of_countP_pos s.workers hpos
          exact ⟨_, .workerCloseQuit s j hj⟩
  | closequit =>
    right
    exact ⟨_, .readCloseQuit s hr⟩
  | closein =>
    right
    exact ⟨_, .readCloseIn s hr⟩
  | done =>
    rcases workers_classify s.workers with ⟨i, hi⟩ | ⟨i, r, hi⟩ | ⟨i, hi⟩ | hall
    · right
      exact ⟨_, .workerRecvClosed s i hi (inv.inIff.mpr hr)⟩
    · right
      exact step_of_worker_send inv i r hi (by rw [hr]; rfl)
    · right
      exact ⟨_, .workerCloseQuit s i hi⟩
    · cases ho : s.outClosed with
      | false =>
        right
        exact ⟨_, .closeOut s hr hall ho⟩
      | true =>
        cases hc : s.consPc with
        | recv =>
          right
          exact ⟨_, .consRecvClosed s hc ho⟩
        | done =>
          left
          exact ⟨hr, hall, ho, hc⟩

/-! ## C3: cancellation is raised at most once; no deadlock -/

/-- C3.  In every state of the `MapAsync` system reachable from the start
of a run with at least one worker — including every execution in which
the reader and/or workers raise the quit signal — `close(quit)` has been
executed at most once (so no double-close panic of the quit channel; `in`
and `out` are closed by a unique task by construction), and the system is
never deadlocked: either it has terminated or some task can take a
step. -/
theorem mapAsync_quit_close_safe [Inhabited A] (env : PoolEnv B A Err)
    (srcData : List B) (n : Nat) (s : PoolState B A Err) (hn : 1 ≤ n)
    (hreach : PoolReachable env srcData n s) :
    s.quitCloseCount ≤ 1 ∧ (PoolFinal s ∨ ∃ s', PoolStep env s s') := by
  have inv := poolInv_reachable hn hreach
  constructor
  · have hb := inv.closerBalance
    have he := errFlag_le_one s.current.err
    omega
  · exact pool_progress env s inv

/-- Witness for `mapAsync_quit_close_safe` at the initial state of a
two-worker run. -/
theorem mapAsync_quit_close_safe_witness :
    (poolInit [1, 2] 2 : PoolState Nat Nat Nat).quitCloseCount ≤ 1
    ∧ (PoolFinal (poolInit [1, 2] 2 : PoolState Nat Nat Nat)
       ∨ ∃ s', PoolStep ⟨fun b => (b * 2, none), none⟩
           (poolInit [1, 2] 2 : PoolState Nat Nat Nat) s') :=
  mapAsync_quit_close_safe ⟨fun b => (b * 2, none), none⟩ [1, 2] 2 _
    (by decide) Relation.ReflTransGen.refl

/-! ## C8: bounded drain -/

theorem getNLoop_nonneg_take {σ E Err : Type} (it : IterSM σ E Err) (n : Int)
    (hn : 0 ≤ n) : ∀ (fuel i : Nat) (s : σ),
    (getNLoop it n fuel i s).1 = (pullTrace it fuel s).take (n - i).toNat := by
  intro fuel
  induction fuel with
  | zero =>
    intro i s
    simp [getNLoop, pullTrace]
  | succ fuel ih =>
    intro i s
    by_cases hin : (i : Int) < n
    · simp only [getNLoop, pullTrace]
      rw [if_pos (Or.inr hin)]
      cases hnx : it.next s with
      | mk s' b =>
        cases b
        · simp
        · simp only
          rw [ih (i + 1) s']
          have ht : (n - i).toNat = (n - (i + 1)).toNat + 1 := by omega
          rw [ht, List.take_succ_cons]
          simp
    · simp only [getNLoop]
      rw [if_neg]
      · have ht : (n - i).toNat = 0 := by omega
        rw [ht]
        simp
      · rintro (hc | hc)
        · omega
        · exact hin hc

theorem getNLoop_neg {σ E Err : Type} (it : IterSM σ E Err) (n : Int)
    (hn : n < 0) : ∀ (fuel i : Nat) (s : σ),
    (getNLoop it n fuel i s).1 = pullTrace it fuel s := by
  intro fuel
  induction fuel with
  | zero =>
    intro i s
    simp [getNLoop, pullTrace]
  | succ fuel ih =>
    intro i s
    simp only [getNLoop, pullTrace]
    rw [if_pos (Or.inl hn)]
    cases hnx : it.next s with
    | mk s' b =>
      cases b
      · simp
      · simp only
        rw [ih (i + 1) s']

/-- C8.  `GetN(iter, n)` with `n ≥ 0` collects exactly the next
`min(n, remaining)` values in pull order (the `n`-prefix of the pull
trace) — in particular at most `n` values — paired with `iter.Err()` on
the post-loop state; with `n < 0` it collects all remaining values; and
`ToSlice(iter)` returns exactly `GetN(iter, -1)`. -/
theorem getN_bounded_drain {σ E Err : Type} (it : IterSM σ E Err)
    (fuel : Nat) (s : σ) (n : Int) :
    (0 ≤ n → (getNGo it n fuel s).1 = (pullTrace it fuel s).take n.toNat
       ∧ (getNGo it n fuel s).1.length ≤ n.toNat)
    ∧ (n < 0 → (getNGo it n fuel s).1 = pullTrace it fuel s)
    ∧ toSliceGo it fuel s = getNGo it (-1) fuel s
    ∧ (getNGo it n fuel s).2 = it.err (getNLoop it n fuel 0 s).2 := by
  refine ⟨?_, ?_, rfl, rfl⟩
  · intro hn
    have h := getNLoop_nonneg_take it n hn fuel 0 s
    have heq : (getNGo it n fuel s).1 = (pullTrace it fuel s).take n.toNat := by
      simpa using h
    refine ⟨heq, ?_⟩
    rw [heq, List.length_take]
    exact Nat.min_le_left _ _
  · intro hn
    exact getNLoop_neg it n hn fuel 0 s

/-- Witness for `getN_bounded_drain` on a concrete `Slice` iterator. -/
theorem getN_bounded_drain_witness :
    (0 : Int) ≤ 2
    ∧ (getNGo (sliceIter Nat Nat) 2 5 ⟨[9, 8, 7], false⟩).1
        = (pullTrace (sliceIter Nat Nat) 5 ⟨[9, 8, 7], false⟩).take
            (2 : Int).toNat :=
  ⟨by decide,
   ((getN_bounded_drain (sliceIter Nat Nat) 5 ⟨[9, 8, 7], false⟩ 2).1
      (by decide)).1⟩

/-! ## C4: the single-worker pool equals sequential mapping -/

/-- Sequential application of the transform in source order, stopping at
the first transform error: the reference semantics a single-worker
`MapAsync` must refine. -/
def seqMap (update : B → A × Option Err) : List B → List A × Option Err
  | [] => ([], none)
  | b :: rest =>
    match (update b).2 with
    | none =>
      let r := seqMap update rest
      ((update b).1 :: r.1, r.2)
    | some e => ([], some e)

theorem pair_eq_of_snd {α β : Type _} (x : α × β) (b : β) (h : x.2 = b) :
    x = (x.1, b) := by
  rw [← h]

theorem seqMap_append_ok (update : B → A × Option Err) (p' : List B) (b : B)
    (acc : List A) (h1 : seqMap update p' = (acc, none))
    (h2 : (update b).2 = none) :
    seqMap update (p' ++ [b]) = (acc ++ [(update b).1], none) := by
  induction p' generalizing acc with
  | nil =>
    simp only [seqMap, Prod.mk.injEq] at h1
    obtain ⟨h1a, -⟩ := h1
    subst h1a
    simp only [List.nil_append, seqMap, h2]
  | cons x xs ih =>
    cases hx : (update x).2 with
    | none =>
      simp only [seqMap, hx, List.cons_append, List.append_eq, Prod.mk.injEq] at h1 ⊢
      obtain ⟨h1a, h1b⟩ := h1
      have hxs := ih ((seqMap update xs).1) (pair_eq_of_snd (seqMap update xs) none h1b)
      rw [hxs, ← h1a]
      simp
    | some e =>
      simp only [seqMap, hx, Prod.mk.injEq] at h1
      simp at h1

theorem seqMap_first_err (update : B → A × Option Err) (p' : List B) (b : B)
    (rest : List B) (acc : List A) (e : Err)
    (h1 : seqMap update p' = (acc, none)) (h2 : (update b).2 = some e) :
    seqMap update (p' ++ b :: rest) = (acc, some e) := by
  induction p' generalizing acc with
  | nil =>
    simp only [seqMap, Prod.mk.injEq] at h1
    obtain ⟨h1a, -⟩ := h1
    subst h1a
    simp only [List.nil_append, seqMap, h2]
  | cons x xs ih =>
    cases hx : (update x).2 with
    | none =>
      simp only [seqMap, hx, List.cons_append, List.append_eq, Prod.mk.injEq] at h1 ⊢
      obtain ⟨h1a, h1b⟩ := h1
      have hxs := ih ((seqMap update xs).1) (pair_eq_of_snd (seqMap update xs) none h1b)
      rw [hxs, ← h1a]
      simp
    | some e2 =>
      simp only [seqMap, hx, Prod.mk.injEq] at h1
      simp at h1

theorem seqMap_all_ok (update : B → A × Option Err)
    (h : ∀ b, (update b).2 = none) (l : List B) :
    seqMap update l = (l.map fun b => (update b).1, none) := by
  induction l with
  | nil => rfl
  | cons x xs ih =>
    simp only [seqMap, List.map, h x, ih]

theorem singleton_getElem? {α : Type} (w x : α) (i : Nat)
    (h : [w][i]? = some x) : i = 0 ∧ w = x := by
  cases i with
  | zero =>
    simp at h
    exact ⟨rfl, h⟩
  | succ i => simp at h

/-- The value held by the reader between `iter.Get()` and the completed
`in <- v` send. -/
def readerPend : ReaderPC B Err → List B
  | .send v => [v]
  | _ => []

/-- What the single worker's program counter tells us about how much of
the delivered prefix `p` of the source has surfaced at the consumer. -/
def workerCase (env : PoolEnv B A Err) (acc : List A) (p : List B)
    (rpcDone : Prop) : WorkerPC A Err → Prop
  | .recv => seqMap env.update p = (acc, none)
  | .send r => ∃ p' b, p = p' ++ [b] ∧ seqMap env.update p' = (acc, none)
      ∧ r = workerResult env b
  | .closequit => False
  | .done => rpcDone ∧ seqMap env.update p = (acc, none)

/-- Running-phase invariant of a single-worker, error-free-source run: no
cancellation yet, the reader is in its normal cycle, and the source splits
into the delivered prefix `p`, the value in the reader's hand, and the
rest. -/
def RunA (env : PoolEnv B A Err) (srcData : List B)
    (s : PoolState B A Err) : Prop :=
  s.quitClosed = false
  ∧ (∀ e, s.readerPc ≠ ReaderPC.errsend e)
  ∧ s.readerPc ≠ ReaderPC.closequit
  ∧ ((s.readerPc = ReaderPC.closein ∨ s.readerPc = ReaderPC.done) →
      s.srcRem = [])
  ∧ ∃ (w : WorkerPC A Err) (p : List B),
      s.workers = [w]
      ∧ srcData = p ++ readerPend s.readerPc ++ s.srcRem
      ∧ workerCase env s.acc p (s.readerPc = ReaderPC.done) w

/-- Invariant relating a single-worker run to `seqMap`: either the
consumer is still pulling and `RunA` holds, or it has stopped and its
collected values and buffered error equal the sequential result. -/
def MapInv (env : PoolEnv B A Err) (srcData : List B)
    (s : PoolState B A Err) : Prop :=
  (s.consPc = ConsumerPC.recv ∧ s.current.err = none ∧ RunA env srcData s)
  ∨ (s.consPc = ConsumerPC.done
     ∧ ((∃ e, s.current.err = some e
           ∧ seqMap env.update srcData = (s.acc, some e))
        ∨ (s.current.err = none
           ∧ seqMap env.update srcData = (s.acc, none))))

theorem mapInv_init [Inhabited A] (env : PoolEnv B A Err) (srcData : List B) :
    MapInv env srcData (poolInit srcData 1) := by
  left
  refine ⟨rfl, rfl, rfl, ?_, ?_, ?_, .recv, [], rfl, ?_, rfl⟩
  · intro e
    simp [poolInit]
  · simp [poolInit]
  · rintro (h | h) <;> simp [poolInit] at h
  · simp [poolInit, readerPend]

theorem mapInv_step [Inhabited A] {env : PoolEnv B A Err} {srcData : List B}
    {s s' : PoolState B A Err} (hsrc : env.srcErr = none) (inv : PoolInv s)
    (hm : MapInv env srcData s) (st : PoolStep env s s') :
    MapInv env srcData s' := by
  rcases hm with ⟨hc, hcur, hq, hne, hncq, himp, w, p, hw, hdec, hwc⟩
    | ⟨hc, hrest⟩
  · -- running phase
    cases st with
    | readNextSome v rest h1 h2 =>
      left
      refine ⟨hc, hcur, hq, ?_, ?_, ?_, w, p, hw, ?_, ?_⟩
      · intro e
        dsimp only
        simp
      · dsimp only
        simp
      · dsimp only
        rintro (h | h) <;> simp at h
      · dsimp only
        rw [hdec, h1, h2]
        simp [readerPend]
      · dsimp only
        cases w with
        | recv => exact hwc
        | send r => exact hwc
        | closequit => exact hwc
        | done =>
          exfalso
          have hd := hwc.1
          rw [h1] at hd
          simp at hd
    | readNextNone h1 h2 =>
      left
      have hra : readerAfterLoop (B := B) true env.srcErr = ReaderPC.closein := by
        rw [hsrc]
        rfl
      refine ⟨hc, hcur, hq, ?_, ?_, ?_, w, p, hw, ?_, ?_⟩
      · intro e
        dsimp only
        rw [hra]
        simp
      · dsimp only
        rw [hra]
        simp
      · dsimp only
        intro _
        exact h2
      · dsimp only
        rw [hra, hdec, h1, h2]
        simp [readerPend]
      · dsimp only
        cases w with
        | recv => exact hwc
        | send r => exact hwc
        | closequit => exact hwc
        | done =>
          exfalso
          have hd := hwc.1
          rw [h1] at hd
          simp at hd
    | rendezvousIn i v h1 h2 =>
      left
      rw [hw] at h2
      obtain ⟨hi0, hwrecv⟩ := singleton_getElem? w _ i h2
      subst hwrecv
      refine ⟨hc, hcur, hq, ?_, ?_, ?_, .send (workerResult env v), p ++ [v],
        ?_, ?_, ?_⟩
      · intro e
        dsimp only
        simp
      · dsimp only
        simp
      · dsimp only
        rintro (h | h) <;> simp at h
      · dsimp only
        rw [hw, hi0]
        rfl
      · dsimp only
        rw [hdec, h1]
        simp [readerPend]
      · dsimp only
        exact ⟨p, v, rfl, hwc, rfl⟩
    | readSendQuit v h1 h2 =>
      rw [hq] at h2
      simp at h2
    | readErrDeliver e h1 h2 h3 => exact absurd h1 (hne e)
    | readErrQuit e h1 h2 => exact absurd h1 (hne e)
    | readCloseQuit h1 => exact absurd h1 hncq
    | readCloseIn h1 =>
      left
      refine ⟨hc, hcur, hq, ?_, ?_, ?_, w, p, hw, ?_, ?_⟩
      · intro e
        dsimp only
        simp
      · dsimp only
        simp
      · dsimp only
        intro _
        exact himp (Or.inl h1)
      · dsimp only
        rw [hdec, h1]
        simp [readerPend]
      · dsimp only
        cases w with
        | recv => exact hwc
        | send r => exact hwc
        | closequit => exact hwc
        | done =>
          exfalso
          have hd := hwc.1
          rw [h1] at hd
          simp at hd
    | workerRecvClosed i h1 h2 =>
      left
      rw [hw] at h1
      obtain ⟨hi0, hwrecv⟩ := singleton_getElem? w _ i h1
      subst hwrecv
      have hrd : s.readerPc = ReaderPC.done := inv.inIff.mp h2
      refine ⟨hc, hcur, hq, hne, hncq, himp, .done, p, ?_, hdec, ?_⟩
      · dsimp only
        rw [hw, hi0]
        rfl
      · dsimp only
        exact ⟨hrd, hwc⟩
    | workerDeliverOk i r h1 h2 h3 h4 =>
      left
      rw [hw] at h1
      obtain ⟨hi0, hwsend⟩ := singleton_getElem? w _ i h1
      subst hwsend
      obtain ⟨p', b, hp, hseq, hr⟩ := hwc
      have h5 : (env.update b).2 = none := by
        rw [hr] at h2
        exact h2
      refine ⟨hc, ?_, hq, hne, hncq, himp, .recv, p, ?_, hdec, ?_⟩
      · dsimp only
        rw [hr]
        exact h5
      · dsimp only
        rw [hw, hi0]
        rfl
      · dsimp only
        rw [hp]
        have hval : r.value = (env.update b).1 := by
          rw [hr]
          rfl
        rw [hval]
        exact seqMap_append_ok env.update p' b s.acc hseq h5
    | workerDeliverErr i r e h1 h2 h3 h4 =>
      right
      rw [hw] at h1
      obtain ⟨hi0, hwsend⟩ := singleton_getElem? w _ i h1
      subst hwsend
      obtain ⟨p', b, hp, hseq, hr⟩ := hwc
      have h5 : (env.update b).2 = some e := by
        rw [hr] at h2
        exact h2
      refine ⟨rfl, Or.inl ⟨e, ?_, ?_⟩⟩
      · dsimp only
        exact h2
      · dsimp only
        have hsd : srcData = p' ++ b :: (readerPend s.readerPc ++ s.srcRem) := by
          rw [hdec, hp]
          simp
        rw [hsd]
        exact seqMap_first_err env.update p' b _ s.acc e hseq h5
    | workerSendQuit i r h1 h2 =>
      rw [hq] at h2
      simp at h2
    | workerCloseQuit i h1 =>
      rw [hw] at h1
      obtain ⟨hi0, hwcq⟩ := singleton_getElem? w _ i h1
      rw [hwcq] at hwc
      exact absurd hwc (by simp [workerCase])
    | closeOut h1 h2 h3 =>
      left
      exact ⟨hc, hcur, hq, hne, hncq, himp, w, p, hw, hdec, hwc⟩
    | consRecvClosed h1 h2 =>
      right
      have hrd := (inv.outDone h2).1
      have hwd := (inv.outDone h2).2
      have hwdone : w = WorkerPC.done := by
        refine hwd w ?_
        rw [hw]
        exact List.mem_singleton.mpr rfl
      subst hwdone
      have hsr : s.srcRem = [] := himp (Or.inr hrd)
      refine ⟨rfl, Or.inr ⟨hcur, ?_⟩⟩
      have hsd : srcData = p := by
        rw [hdec, hrd, hsr]
        simp [readerPend]
      rw [hsd]
      exact hwc.2
  · -- the consumer has stopped: its fields never change again
    cases st with
    | readNextSome v rest h1 h2 => exact Or.inr ⟨hc, hrest⟩
    | readNextNone h1 h2 => exact Or.inr ⟨hc, hrest⟩
    | rendezvousIn i v h1 h2 => exact Or.inr ⟨hc, hrest⟩
    | readSendQuit v h1 h2 => exact Or.inr ⟨hc, hrest⟩
    | readErrDeliver e h1 h2 h3 =>
      rw [hc] at h2
      simp at h2
    | readErrQuit e h1 h2 => exact Or.inr ⟨hc, hrest⟩
    | readCloseQuit h1 => exact Or.inr ⟨hc, hrest⟩
    | readCloseIn h1 => exact Or.inr ⟨hc, hrest⟩
    | workerRecvClosed i h1 h2 => exact Or.inr ⟨hc, hrest⟩
    | workerDeliverOk i r h1 h2 h3 h4 =>
      rw [hc] at h3
      simp at h3
    | workerDeliverErr i r e h1 h2 h3 h4 =>
      rw [hc] at h3
      simp at h3
    | workerSendQuit i r h1 h2 => exact Or.inr ⟨hc, hrest⟩
    | workerCloseQuit i h1 => exact Or.inr ⟨hc, hrest⟩
    | closeOut h1 h2 h3 => exact Or.inr ⟨hc, hrest⟩
    | consRecvClosed h1 h2 =>
      rw [hc] at h1
      simp at h1

theorem mapInv_reachable [Inhabited A] {env : PoolEnv B A Err}
    {srcData : List B} {s : PoolState B A Err} (hsrc : env.srcErr = none)
    (h : PoolReachable env srcData 1 s) : MapInv env srcData s := by
  induction h with
  | refl => exact mapInv_init env srcData
  | tail hsteps hstep ih =>
    exact mapInv_step hsrc (poolInv_reachable (Nat.le_refl 1) hsteps) ih hstep

/-- C4.  With one worker and an error-free finite source, every completed
run of `MapAsync` leaves the consumer with exactly the sequentially-mapped
values in source order, and the buffered error equal to the sequential
result's error; in particular, for a transform that never fails, the
output is exactly `map` over the source and `error()` is nil. -/
theorem mapAsync_single_worker_ordered [Inhabited A] (env : PoolEnv B A Err)
    (srcData : List B) (s : PoolState B A Err) (hsrc : env.srcErr = none)
    (hreach : PoolReachable env srcData 1 s) (hfin : PoolFinal s) :
    (s.acc = (seqMap env.update srcData).1
      ∧ s.current.err = (seqMap env.update srcData).2)
    ∧ ((∀ b, (env.update b).2 = none) →
        s.acc = srcData.map (fun b => (env.update b).1)
        ∧ s.current.err = none) := by
  have hm := mapInv_reachable hsrc hreach
  rcases hm with ⟨hc, -⟩ | ⟨-, hrest⟩
  · rw [hfin.2.2.2] at hc
    simp at hc
  · have hmain : s.acc = (seqMap env.update srcData).1
        ∧ s.current.err = (seqMap env.update srcData).2 := by
      rcases hrest with ⟨e, hcur, hseq⟩ | ⟨hcur, hseq⟩
      · rw [hseq]
        exact ⟨rfl, hcur⟩
      · rw [hseq]
        exact ⟨rfl, hcur⟩
    refine ⟨hmain, fun hall => ?_⟩
    have hok := seqMap_all_ok env.update hall srcData
    rw [hok] at hmain
    exact hmain

/-- Environment for the single-worker witness run: transform `b ↦ b + 1`,
error-free source. -/
def poolWitnessEnv : PoolEnv Nat Nat Nat := ⟨fun b => (b + 1, none), none⟩

/-- Final state of the witness run of `MapAsync` on source `[5]` with one
worker. -/
def poolWitnessFinal : PoolState Nat Nat Nat :=
  { readerPc := .done, srcRem := [], srcDone := true, workers := [.done],
    inClosed := true, quitClosed := false, quitCloseCount := 0,
    outClosed := true, consPc := .done, current := ⟨6, none⟩, acc := [6] }

/-- Witness for `mapAsync_single_worker_ordered`: an explicit complete
interleaving on source `[5]` reaching `poolWitnessFinal`, whose collected
values are the sequential map. -/
theorem mapAsync_single_worker_ordered_witness :
    poolWitnessEnv.srcErr = none
    ∧ PoolFinal poolWitnessFinal
    ∧ poolWitnessFinal.acc = (seqMap poolWitnessEnv.update [5]).1
    ∧ poolWitnessFinal.current.err = (seqMap poolWitnessEnv.update [5]).2 := by
  have r0 : PoolReachable poolWitnessEnv [5] 1 (poolInit [5] 1) :=
    Relation.ReflTransGen.refl
  have r1 := r0.tail (PoolStep.readNextSome _ 5 [] rfl rfl)
  have r2 := r1.tail (PoolStep.rendezvousIn _ 0 5 rfl rfl)
  have r3 := r2.tail (PoolStep.readNextNone _ rfl rfl)
  have r4 := r3.tail (PoolStep.readCloseIn _ rfl)
  have r5 := r4.tail (PoolStep.workerDeliverOk _ 0
    (workerResult poolWitnessEnv 5) rfl rfl rfl rfl)
  have r6 := r5.tail (PoolStep.workerRecvClosed _ 0 rfl rfl)
  have r7 := r6.tail (PoolStep.closeOut _ rfl
    (by intro pc h; simpa [poolInit, List.replicate, List.set] using h) rfl)
  have r8 := r7.tail (PoolStep.consRecvClosed _ rfl rfl)
  have hreach : PoolReachable poolWitnessEnv [5] 1 poolWitnessFinal := r8
  have hfin : PoolFinal poolWitnessFinal :=
    ⟨rfl, by intro pc h; simpa [poolWitnessFinal] using h, rfl, rfl⟩
  have h := mapAsync_single_worker_ordered poolWitnessEnv [5]
    poolWitnessFinal rfl hreach hfin
  exact ⟨rfl, hfin, h.1.1, h.1.2⟩
